import Mathlib

/-!
Shallow embedding of the niri compositor client
(`src/clients/compositor/niri/mod.rs` and
`src/clients/compositor/niri/connection.rs`): the data model, the
diff pass of `Client::refresh_windows`, the window-to-workspace mapping,
the event listener closure of `Connection::send`, the dispatch loop of
`Client::new`, the broadcast replay of `Client::subscribe`, and the
integer casts of `Client::focus` / `Client::window_to_workspace`.
-/

/-- Modelled from the spec: the `Visibility` type lives in
`crate::clients::compositor`, outside the extracted sources; the spec
describes it as one of focused / visible / hidden, with `is_focused`
true exactly for the focused state. -/
inductive Visibility where
  | focused
  | visible
  | hidden
deriving DecidableEq

/-- The `Visibility::is_focused` predicate used by the diff pass. -/
def Visibility.is_focused : Visibility → Bool
  | .focused => true
  | _ => false

/-- The `IronWorkspace` record (`Workspace` in the workspace client
interface): windows are mapped into this shape. -/
structure IronWorkspace where
  id : Int
  index : Int
  name : String
  monitor : String
  visibility : Visibility
deriving DecidableEq

/-- The `WorkspaceUpdate` variants emitted by the niri client. -/
inductive WorkspaceUpdate where
  | Init (list : List IronWorkspace)
  | Add (workspace : IronWorkspace)
  | Remove (id : Int)
  | Move (workspace : IronWorkspace)
  | Rename (id : Int) (name : String)
  | Focus (old : Option IronWorkspace) (new : IronWorkspace)
deriving DecidableEq

/-- The id carried by an update (`Focus` is keyed by its new entity). -/
def WorkspaceUpdate.uid : WorkspaceUpdate → Option Int
  | .Init _ => none
  | .Add w => some w.id
  | .Remove i => some i
  | .Move w => some w.id
  | .Rename i _ => some i
  | .Focus _ w => some w.id

/-- Whether an update is a `Remove`. -/
def WorkspaceUpdate.isRemove : WorkspaceUpdate → Bool
  | .Remove _ => true
  | _ => false

/-- Whether an update is a `Focus`. -/
def WorkspaceUpdate.isFocus : WorkspaceUpdate → Bool
  | .Focus _ _ => true
  | _ => false

/-- The `niri_ipc::Window` fields read by the client.  The `id` field is
a `u64`, embedded as a natural number (meaningful values are below
`2 ^ 64`). -/
structure Window where
  id : Nat
  title : Option String
  app_id : Option String
  output : Option String
  is_focused : Bool
deriving DecidableEq

/-- Rust `as i64` on a `u64` value: two's-complement reinterpretation. -/
def u64AsI64 (n : Nat) : Int :=
  if n % 2 ^ 64 < 2 ^ 63 then ((n % 2 ^ 64 : Nat) : Int)
  else ((n % 2 ^ 64 : Nat) : Int) - 2 ^ 64

/-- Rust `as u64` on an `i64` value: two's-complement reinterpretation. -/
def i64AsU64 (i : Int) : Nat :=
  (i % 2 ^ 64).toNat

/-- `Client::window_to_workspace` (mod.rs lines 159-181). -/
def window_to_workspace (window : Window) (index : Int) : IronWorkspace :=
  { id := u64AsI64 window.id
    index := index
    name := (window.title.or window.app_id).getD ("Window")
    monitor := window.output.getD ("")
    visibility := if window.is_focused then Visibility.focused else Visibility.visible }

/-- The conversion step of `Client::refresh_windows` (mod.rs lines
102-106): enumerate the fetched windows and map each with its visual
index (`idx as i64`). -/
def fetched_to_workspaces (windows : List Window) : List IronWorkspace :=
  windows.enum.map (fun p => window_to_workspace p.2 (Int.ofNat p.1))

/-- The two `push`es guarded by the matched-entity checks of
`Client::refresh_windows` (mod.rs lines 117-138), collected in emission
order: rename check, move check, focus check. -/
def matchedUpdates (old_w new_w : IronWorkspace) : List WorkspaceUpdate :=
  (if new_w.name ≠ old_w.name then [WorkspaceUpdate.Rename new_w.id new_w.name] else [])
    ++ (if new_w.index ≠ old_w.index ∨ new_w.monitor ≠ old_w.monitor
        then [WorkspaceUpdate.Move new_w] else [])
    ++ (if new_w.visibility.is_focused ≠ old_w.visibility.is_focused
           ∧ new_w.visibility.is_focused = true
        then [WorkspaceUpdate.Focus (some old_w) new_w] else [])

/-- The per-entity body of the first loop of `Client::refresh_windows`
(mod.rs lines 116-142): find a matching id in the old state, else add. -/
def entityUpdates (old_state : List IronWorkspace) (new_w : IronWorkspace) :
    List WorkspaceUpdate :=
  match old_state.find? (fun w => w.id == new_w.id) with
  | some old_w => matchedUpdates old_w new_w
  | none => [WorkspaceUpdate.Add new_w]

/-- The non-initial diff pass of `Client::refresh_windows` (mod.rs lines
113-149): the first loop walks `new_workspaces` pushing
add/rename/move/focus updates, the second walks the old state pushing
removals. -/
def diffUpdates (old_state new_workspaces : List IronWorkspace) : List WorkspaceUpdate :=
  let updates := new_workspaces.foldl
    (fun updates new_w =>
      match old_state.find? (fun w => w.id == new_w.id) with
      | some old_w =>
          let updates := if new_w.name ≠ old_w.name
            then updates ++ [WorkspaceUpdate.Rename new_w.id new_w.name] else updates
          let updates := if new_w.index ≠ old_w.index ∨ new_w.monitor ≠ old_w.monitor
            then updates ++ [WorkspaceUpdate.Move new_w] else updates
          if new_w.visibility.is_focused ≠ old_w.visibility.is_focused
             ∧ new_w.visibility.is_focused = true
            then updates ++ [WorkspaceUpdate.Focus (some old_w) new_w] else updates
      | none => updates ++ [WorkspaceUpdate.Add new_w])
    []
  old_state.foldl
    (fun updates old_w =>
      if !(new_workspaces.any (fun w => w.id == old_w.id))
        then updates ++ [WorkspaceUpdate.Remove old_w.id] else updates)
    updates

/-- The removal part of the diff pass, in closed form: old entities whose
id is absent from the new list, in old-list order. -/
def removesList (old_state new_workspaces : List IronWorkspace) : List WorkspaceUpdate :=
  (old_state.filter (fun old_w => !(new_workspaces.any (fun w => w.id == old_w.id)))).map
    (fun old_w => WorkspaceUpdate.Remove old_w.id)

/-- The updates of a pass that carry a given entity id. -/
def updatesFor (i : Int) (updates : List WorkspaceUpdate) : List WorkspaceUpdate :=
  updates.filter (fun u => u.uid == some i)

/-- Emission-order relation of a diff pass: a `Remove` is followed only
by `Remove`s of strictly later old-list ids; a non-`Remove` is followed
by `Remove`s or by non-`Remove`s whose id occurs no earlier in the new
list. -/
def emitBefore (oldIds newIds : List Int) (u v : WorkspaceUpdate) : Prop :=
  if u.isRemove then
    v.isRemove = true ∧ oldIds.indexOf (u.uid.getD 0) < oldIds.indexOf (v.uid.getD 0)
  else
    v.isRemove = true ∨ newIds.indexOf (u.uid.getD 0) ≤ newIds.indexOf (v.uid.getD 0)

/-- The `niri_ipc::Response` shapes distinguished by
`Client::refresh_windows`: a window list, or anything else (matched by
the wildcard arm). -/
inductive Response where
  | Windows (windows : List Window)
  | Handled
deriving DecidableEq

/-- The outcome of the fetch attempt of `Client::refresh_windows`
(mod.rs lines 81-98): each failing arm of the nested match, or a
successfully decoded reply. -/
inductive FetchOutcome where
  | connectError (message : String)
  | sendError (message : String)
  | replyErr (message : String)
  | reply (response : Response)
deriving DecidableEq

/-- Whether the fetch attempt takes one of the early-return arms. -/
def FetchOutcome.fetchFailed : FetchOutcome → Bool
  | .reply (Response.Windows _) => false
  | _ => true

/-- `Client::refresh_windows` (mod.rs lines 75-157) as a state
transformer: given the fetch outcome, the stored list and the `is_init`
flag, it returns the new stored list and the updates published through
the broadcast sender, in order.  Every failing fetch arm returns early:
the store keeps its value and nothing is published. -/
def refresh_windows (fetch : FetchOutcome) (state : List IronWorkspace)
    (is_init : Bool) : List IronWorkspace × List WorkspaceUpdate :=
  match fetch with
  | .reply (Response.Windows windows) =>
      let new_workspaces := fetched_to_workspaces windows
      let updates := if is_init then [WorkspaceUpdate.Init new_workspaces]
        else diffUpdates state new_workspaces
      (new_workspaces, updates)
  | _ => (state, [])

/-- The `niri_ipc::Event` variants matched by the dispatch loop of
`Client::new`; `Other` is the catch-all the connection produces for
empty reads and undecodable payloads, and stands for every other event
variant. -/
inductive Event where
  | WindowsChanged
  | WindowOpenedOrChanged
  | WindowClosed
  | WindowFocusChanged
  | WorkspacesChanged
  | WorkspaceActivated
  | Other
deriving DecidableEq

/-- A hard I/O error, as carried by `std::io::Error`. -/
structure IoError where
  message : String
deriving DecidableEq

/-- What one `read_line` call on the event connection can yield: a line
(possibly empty, e.g. at end of stream), or a hard I/O error. -/
inductive ReadOutcome where
  | line (contents : String)
  | ioError (e : IoError)
deriving DecidableEq

/-- The buffer contents after `reader.read_line(&mut buf).await.unwrap_or(0)`
in the events closure of `Connection::send` (connection.rs lines 46-49):
the buffer is cleared first, and on a hard I/O error `unwrap_or(0)`
discards the error, leaving the cleared buffer empty. -/
def listener_buffer : ReadOutcome → String
  | .line contents => contents
  | .ioError _ => ""

/-- Rust's `buf.trim().is_empty()`: the buffer is empty or
all-whitespace. -/
def trim_isEmpty (buf : String) : Bool :=
  buf.data.all (fun c => c.isWhitespace)

/-- The events closure of `Connection::send` (connection.rs lines
45-56), parameterised by the JSON event decoder: an empty or whitespace
buffer yields `Ok(Event::Other)`, an undecodable buffer falls back to
`Event::Other` via `unwrap_or`, and a decoded event is returned as-is.
The closure returns `Ok` on every path. -/
def event_listener (parse : String → Option Event) (r : ReadOutcome) :
    Except IoError Event :=
  let buf := listener_buffer r
  if trim_isEmpty buf then Except.ok Event.Other
  else Except.ok ((parse buf).getD Event.Other)

/-- Whether an event is refresh-triggering, from the `matches!` of
`Client::new` (mod.rs lines 49-57). -/
def should_refresh : Event → Bool
  | .WindowsChanged => true
  | .WindowOpenedOrChanged => true
  | .WindowClosed => true
  | .WindowFocusChanged => true
  | .WorkspacesChanged => true
  | .WorkspaceActivated => true
  | .Other => false

/-- The two states of the dispatch loop. -/
inductive LoopState where
  | Listening
  | Terminated
deriving DecidableEq

/-- One iteration of the dispatch loop of `Client::new` (mod.rs lines
37-62): an `Err` from the event listener breaks out of the loop
(`Terminated`), an `Ok` keeps listening and refreshes exactly when the
event is refresh-triggering.  The returned flag records whether
`refresh_windows` is invoked for this iteration. -/
def loop_step (result : Except IoError Event) : LoopState × Bool :=
  match result with
  | .error _ => (LoopState.Terminated, false)
  | .ok event => (LoopState.Listening, should_refresh event)

/-- The broadcast hub state seen by `Client::subscribe`: the stored
entity list and, for each currently-registered subscriber, its queue of
delivered updates. -/
structure HubState where
  windows_as_workspaces : List IronWorkspace
  subscribers : List (List WorkspaceUpdate)
deriving DecidableEq

/-- `broadcast::Sender::send`: deliver one update to every
currently-registered subscriber. -/
def publish (update : WorkspaceUpdate) (subscribers : List (List WorkspaceUpdate)) :
    List (List WorkspaceUpdate) :=
  subscribers.map (fun queue => queue ++ [update])

/-- `Client::subscribe` (mod.rs lines 208-218): register a new receiver
first, then, if the stored list is non-empty, publish an
`Init(currentList)` through the shared sender — reaching every
registered subscriber, the new one included. -/
def subscribe (s : HubState) : HubState :=
  let registered := s.subscribers ++ [[]]
  if s.windows_as_workspaces.isEmpty then
    { s with subscribers := registered }
  else
    { s with subscribers :=
        publish (WorkspaceUpdate.Init s.windows_as_workspaces) registered }

/-- The `niri_ipc::Action` variant sent by `Client::focus`. -/
inductive NiriAction where
  | FocusWindow (id : Nat)
deriving DecidableEq

/-- The command built by `Client::focus` (mod.rs lines 198-200):
`Action::FocusWindow { id: id as u64 }`. -/
def focus_action (id : Int) : NiriAction :=
  NiriAction.FocusWindow (i64AsU64 id)

/-- Sample entities for concrete evaluations. -/
def sampleA : IronWorkspace :=
  { id := 1, index := 0, name := "a", monitor := "m", visibility := Visibility.visible }

/-- A second sample entity sharing `sampleA`'s id but differing in other
fields. -/
def sampleA' : IronWorkspace :=
  { id := 1, index := 1, name := "b", monitor := "m", visibility := Visibility.visible }

/-- A sample entity with a distinct id. -/
def sampleB : IronWorkspace :=
  { id := 2, index := 1, name := "c", monitor := "m", visibility := Visibility.focused }

/-- The focused variant of `sampleA`: same id and other fields. -/
def sampleAf : IronWorkspace :=
  { id := 1, index := 0, name := "a", monitor := "m", visibility := Visibility.focused }

/-- A renamed, moved and focused variant of `sampleA`. -/
def sampleA2 : IronWorkspace :=
  { id := 1, index := 0, name := "b", monitor := "m2", visibility := Visibility.focused }

/-- A third sample entity with its own id. -/
def sampleC : IronWorkspace :=
  { id := 3, index := 2, name := "d", monitor := "m", visibility := Visibility.visible }

/-- A sample focused window. -/
def sampleWindow : Window :=
  { id := 7, title := some ("t"), app_id := some ("app"), output := some ("m"),
    is_focused := true }

/-- A sample window whose id is at or above `2 ^ 63`. -/
def sampleWindowBig : Window :=
  { id := 2 ^ 63 + 5, title := none, app_id := none, output := none,
    is_focused := false }

example : diffUpdates [sampleA] [sampleA] = [] := by decide

example : diffUpdates [sampleA, sampleA'] [sampleA, sampleA'] ≠ [] := by decide

example :
    diffUpdates [sampleA] [sampleA, sampleB]
      = [WorkspaceUpdate.Add sampleB] := by decide

/-! Structural lemmas about the diff pass. -/

/-- Folding push-appends over a list is a flat map. -/
theorem foldl_append_flatMap {α β : Type} (g : α → List β) (l : List α) :
    ∀ init : List β, l.foldl (fun acc x => acc ++ g x) init = init ++ l.flatMap g := by
  induction l with
  | nil => intro init; simp
  | cons x t ih => intro init; simp [ih, List.append_assoc]

/-- Folding guarded pushes over a list maps its filtered sublist. -/
theorem foldl_guard_push {α β : Type} (p : α → Bool) (g : α → β) (l : List α) :
    ∀ init : List β,
      l.foldl (fun acc x => if p x then acc ++ [g x] else acc) init
        = init ++ (l.filter p).map g := by
  induction l with
  | nil => intro init; simp
  | cons x t ih =>
    intro init
    by_cases h : p x <;> simp [h, ih, List.append_assoc]

/-- One iteration of the first diff loop appends `entityUpdates`. -/
theorem diff_step_eq (old_state : List IronWorkspace) (updates : List WorkspaceUpdate)
    (new_w : IronWorkspace) :
    (match old_state.find? (fun w => w.id == new_w.id) with
      | some old_w =>
          let updates := if new_w.name ≠ old_w.name
            then updates ++ [WorkspaceUpdate.Rename new_w.id new_w.name] else updates
          let updates := if new_w.index ≠ old_w.index ∨ new_w.monitor ≠ old_w.monitor
            then updates ++ [WorkspaceUpdate.Move new_w] else updates
          if new_w.visibility.is_focused ≠ old_w.visibility.is_focused
             ∧ new_w.visibility.is_focused = true
            then updates ++ [WorkspaceUpdate.Focus (some old_w) new_w] else updates
      | none => updates ++ [WorkspaceUpdate.Add new_w])
      = updates ++ entityUpdates old_state new_w := by
  cases h : old_state.find? (fun w => w.id == new_w.id) with
  | none => simp [entityUpdates, h]
  | some old_w =>
    simp only [entityUpdates, h, matchedUpdates]
    split_ifs <;> simp

/-- The diff pass in closed form: per-entity updates in new-list order,
followed by the removals in old-list order. -/
theorem diffUpdates_eq (old_state new_workspaces : List IronWorkspace) :
    diffUpdates old_state new_workspaces
      = new_workspaces.flatMap (entityUpdates old_state)
        ++ removesList old_state new_workspaces := by
  unfold diffUpdates removesList
  rw [List.foldl_ext _ (fun acc new_w => acc ++ entityUpdates old_state new_w) []
      (fun acc new_w _ => diff_step_eq old_state acc new_w)]
  rw [foldl_append_flatMap, foldl_guard_push]
  simp

/-- Case analysis for membership in the matched-entity updates. -/
theorem mem_matchedUpdates_cases {old_w new_w : IronWorkspace} {u : WorkspaceUpdate}
    (h : u ∈ matchedUpdates old_w new_w) :
    u = WorkspaceUpdate.Rename new_w.id new_w.name ∨ u = WorkspaceUpdate.Move new_w
      ∨ u = WorkspaceUpdate.Focus (some old_w) new_w := by
  unfold matchedUpdates at h
  split_ifs at h <;> simp_all <;> tauto

/-- Every update produced for a matched entity carries that entity's id
and is neither a `Remove` nor an `Add`. -/
theorem mem_matchedUpdates {old_w new_w : IronWorkspace} {u : WorkspaceUpdate}
    (h : u ∈ matchedUpdates old_w new_w) :
    u.uid = some new_w.id ∧ u.isRemove = false ∧ ∀ w, u ≠ WorkspaceUpdate.Add w := by
  rcases mem_matchedUpdates_cases h with rfl | rfl | rfl <;>
    simp [WorkspaceUpdate.uid, WorkspaceUpdate.isRemove]

/-- Every update produced in the first diff loop for entity `new_w`
carries `new_w`'s id and is not a `Remove`. -/
theorem mem_entityUpdates {old_state : List IronWorkspace} {new_w : IronWorkspace}
    {u : WorkspaceUpdate} (h : u ∈ entityUpdates old_state new_w) :
    u.uid = some new_w.id ∧ u.isRemove = false := by
  unfold entityUpdates at h
  cases hf : old_state.find? (fun w => w.id == new_w.id) with
  | none =>
    rw [hf] at h
    simp only [List.mem_singleton] at h
    subst h
    simp [WorkspaceUpdate.uid, WorkspaceUpdate.isRemove]
  | some old_w =>
    rw [hf] at h
    exact ⟨(mem_matchedUpdates h).1, (mem_matchedUpdates h).2.1⟩

/-- An `Add` appears in the first diff loop only for an id with no match
in the old state. -/
theorem add_mem_entityUpdates {old_state : List IronWorkspace} {new_w w : IronWorkspace}
    (h : WorkspaceUpdate.Add w ∈ entityUpdates old_state new_w) :
    w = new_w ∧ old_state.find? (fun x => x.id == new_w.id) = none := by
  unfold entityUpdates at h
  cases hf : old_state.find? (fun x => x.id == new_w.id) with
  | none =>
    rw [hf] at h
    simp only [List.mem_singleton, WorkspaceUpdate.Add.injEq] at h
    exact ⟨h, rfl⟩
  | some old_w =>
    rw [hf] at h
    exact absurd rfl ((mem_matchedUpdates h).2.2 w)

/-- Shape of the members of the removal part of the diff pass. -/
theorem mem_removesList {old_state new_workspaces : List IronWorkspace}
    {u : WorkspaceUpdate} (h : u ∈ removesList old_state new_workspaces) :
    ∃ old_w, old_w ∈ old_state ∧ u = WorkspaceUpdate.Remove old_w.id
      ∧ ∀ w ∈ new_workspaces, w.id ≠ old_w.id := by
  unfold removesList at h
  simp only [List.mem_map, List.mem_filter] at h
  obtain ⟨old_w, ⟨hmem, habs⟩, rfl⟩ := h
  refine ⟨old_w, hmem, rfl, ?_⟩
  simp only [Bool.not_eq_true', List.any_eq_false] at habs
  intro w hw
  simpa using habs w hw

/-- If a member of the old state has the sought id and the old ids are
pairwise distinct, `find?` returns exactly that member. -/
theorem find?_id_of_nodup {l : List IronWorkspace} {ow : IronWorkspace}
    (hn : (l.map (fun w => w.id)).Nodup) (hm : ow ∈ l) :
    l.find? (fun w => w.id == ow.id) = some ow := by
  induction l with
  | nil => cases hm
  | cons h t ih =>
    rw [List.map_cons, List.nodup_cons] at hn
    rcases List.mem_cons.1 hm with rfl | hmt
    · rw [List.find?_cons_of_pos _ (by simp)]
    · have hne : h.id ≠ ow.id := by
        intro he
        exact hn.1 (he ▸ List.mem_map_of_mem (fun w => w.id) hmt)
      rw [List.find?_cons_of_neg _ (by simpa using hne)]
      exact ih hn.2 hmt

/-- If no member of the old state has the sought id, `find?` fails. -/
theorem find?_id_of_absent {l : List IronWorkspace} {i : Int}
    (h : ∀ w ∈ l, w.id ≠ i) :
    l.find? (fun w => w.id == i) = none := by
  rw [List.find?_eq_none]
  intro w hw
  simpa using h w hw

/-- No update of the first diff loop carries an id absent from the new
list. -/
theorem updatesFor_flatMap_of_absent {old_state new_workspaces : List IronWorkspace}
    {i : Int} (h : ∀ w ∈ new_workspaces, w.id ≠ i) :
    (new_workspaces.flatMap (entityUpdates old_state)).filter
      (fun u => u.uid == some i) = [] := by
  rw [List.filter_eq_nil_iff]
  intro u hu
  obtain ⟨w, hw, hu⟩ := List.mem_flatMap.1 hu
  have huid := (mem_entityUpdates hu).1
  simp only [huid, beq_iff_eq, Option.some.injEq]
  exact h w hw

/-- In the first diff loop, filtering by the id of a member of a
duplicate-free new list isolates exactly that member's updates. -/
theorem updatesFor_flatMap_of_mem {old_state : List IronWorkspace}
    {new_workspaces : List IronWorkspace} {nw : IronWorkspace}
    (hn : (new_workspaces.map (fun w => w.id)).Nodup) (hm : nw ∈ new_workspaces) :
    (new_workspaces.flatMap (entityUpdates old_state)).filter
      (fun u => u.uid == some nw.id) = entityUpdates old_state nw := by
  induction new_workspaces with
  | nil => cases hm
  | cons hd t ih =>
    rw [List.map_cons, List.nodup_cons] at hn
    rw [List.flatMap_cons, List.filter_append]
    rcases List.mem_cons.1 hm with rfl | hmt
    · have h1 : (entityUpdates old_state nw).filter (fun u => u.uid == some nw.id)
          = entityUpdates old_state nw := by
        rw [List.filter_eq_self]
        intro u hu
        simp [(mem_entityUpdates hu).1]
      have h2 : (t.flatMap (entityUpdates old_state)).filter
          (fun u => u.uid == some nw.id) = [] := by
        apply updatesFor_flatMap_of_absent
        intro w hw he
        exact hn.1 (by rw [← he]; exact List.mem_map_of_mem _ hw)
      rw [h1, h2, List.append_nil]
    · have hne : hd.id ≠ nw.id := fun he =>
        hn.1 (by rw [he]; exact List.mem_map_of_mem _ hmt)
      have h1 : (entityUpdates old_state hd).filter
          (fun u => u.uid == some nw.id) = [] := by
        rw [List.filter_eq_nil_iff]
        intro u hu
        simp only [(mem_entityUpdates hu).1, beq_iff_eq, Option.some.injEq]
        exact hne
      rw [h1, List.nil_append]
      exact ih hn.2 hmt

/-- Removal updates never carry an id present in the new list. -/
theorem updatesFor_removes_of_mem {old_state new_workspaces : List IronWorkspace}
    {nw : IronWorkspace} (hm : nw ∈ new_workspaces) :
    (removesList old_state new_workspaces).filter
      (fun u => u.uid == some nw.id) = [] := by
  rw [List.filter_eq_nil_iff]
  intro u hu
  obtain ⟨old_w, hmem, rfl, habs⟩ := mem_removesList hu
  simp only [WorkspaceUpdate.uid, beq_iff_eq, Option.some.injEq]
  exact fun he => habs nw hm he.symm

/-- Unfolding the removal part of the diff pass one old entity at a
time. -/
theorem removesList_cons {hd : IronWorkspace} {t new_workspaces : List IronWorkspace} :
    removesList (hd :: t) new_workspaces
      = (if !(new_workspaces.any (fun w => w.id == hd.id))
         then [WorkspaceUpdate.Remove hd.id] else [])
        ++ removesList t new_workspaces := by
  unfold removesList
  by_cases hq : new_workspaces.any (fun w => w.id == hd.id) <;>
    simp [hq, List.filter_cons]

/-- Filtering the removal updates by the id of a member of a
duplicate-free old list with no match in the new list gives exactly its
`Remove`. -/
theorem updatesFor_removes_of_only_old {old_state new_workspaces : List IronWorkspace}
    {ow : IronWorkspace} (hn : (old_state.map (fun w => w.id)).Nodup)
    (hm : ow ∈ old_state) (habs : ∀ w ∈ new_workspaces, w.id ≠ ow.id) :
    (removesList old_state new_workspaces).filter (fun u => u.uid == some ow.id)
      = [WorkspaceUpdate.Remove ow.id] := by
  induction old_state with
  | nil => cases hm
  | cons hd t ih =>
    rw [List.map_cons, List.nodup_cons] at hn
    rw [removesList_cons, List.filter_append]
    rcases List.mem_cons.1 hm with rfl | hmt
    · have hany : (new_workspaces.any fun w => w.id == ow.id) = false := by
        simp only [List.any_eq_false]
        intro w hw
        simpa using habs w hw
      have h2 : (removesList t new_workspaces).filter
          (fun u => u.uid == some ow.id) = [] := by
        rw [List.filter_eq_nil_iff]
        intro u hu
        obtain ⟨old_w, hmem, rfl, _⟩ := mem_removesList hu
        simp only [WorkspaceUpdate.uid, beq_iff_eq, Option.some.injEq]
        exact fun he => hn.1 (by rw [← he]; exact List.mem_map_of_mem _ hmem)
      rw [hany, h2]
      simp [WorkspaceUpdate.uid]
    · have hne : hd.id ≠ ow.id := fun he =>
        hn.1 (by rw [he]; exact List.mem_map_of_mem _ hmt)
      have h1 : (if !(new_workspaces.any (fun w => w.id == hd.id))
          then [WorkspaceUpdate.Remove hd.id] else ([] : List WorkspaceUpdate)).filter
          (fun u => u.uid == some ow.id) = [] := by
        split_ifs <;> simp [WorkspaceUpdate.uid, hne]
      rw [h1, List.nil_append]
      exact ih hn.2 hmt

/-- Filtering a non-initial diff pass by the id of a member of a
duplicate-free new list isolates exactly that member's first-loop
updates. -/
theorem updatesFor_diff_of_mem {old_state new_workspaces : List IronWorkspace}
    {nw : IronWorkspace} (hn : (new_workspaces.map (fun w => w.id)).Nodup)
    (hm : nw ∈ new_workspaces) :
    updatesFor nw.id (diffUpdates old_state new_workspaces)
      = entityUpdates old_state nw := by
  unfold updatesFor
  rw [diffUpdates_eq, List.filter_append, updatesFor_flatMap_of_mem hn hm,
    updatesFor_removes_of_mem hm, List.append_nil]

/-- Filtering a non-initial diff pass by the id of a member of a
duplicate-free old list absent from the new list gives exactly one
`Remove`. -/
theorem updatesFor_diff_of_only_old {old_state new_workspaces : List IronWorkspace}
    {ow : IronWorkspace} (hn : (old_state.map (fun w => w.id)).Nodup)
    (hm : ow ∈ old_state) (habs : ∀ w ∈ new_workspaces, w.id ≠ ow.id) :
    updatesFor ow.id (diffUpdates old_state new_workspaces)
      = [WorkspaceUpdate.Remove ow.id] := by
  unfold updatesFor
  rw [diffUpdates_eq, List.filter_append, updatesFor_flatMap_of_absent habs,
    updatesFor_removes_of_only_old hn hm habs, List.nil_append]

/-- A matched entity whose name, index and monitor are unchanged and
whose new state is unfocused produces no update. -/
theorem matchedUpdates_eq_nil {old_w new_w : IronWorkspace}
    (hname : new_w.name = old_w.name) (hindex : new_w.index = old_w.index)
    (hmon : new_w.monitor = old_w.monitor)
    (hnf : new_w.visibility.is_focused = false) :
    matchedUpdates old_w new_w = [] := by
  unfold matchedUpdates
  simp [hname, hindex, hmon, hnf]

/-- An entity matched against itself produces no update. -/
theorem matchedUpdates_self {w : IronWorkspace} : matchedUpdates w w = [] := by
  simp [matchedUpdates]

/-- A matched entity that gains focus produces exactly one `Focus`
among its updates, carrying the previous and the new entity value. -/
theorem matchedUpdates_focus_filter {old_w new_w : IronWorkspace}
    (hof : old_w.visibility.is_focused = false)
    (hnf : new_w.visibility.is_focused = true) :
    (matchedUpdates old_w new_w).filter (fun u => u.isFocus)
      = [WorkspaceUpdate.Focus (some old_w) new_w] := by
  unfold matchedUpdates
  split_ifs with h1 h2 h3 h4 h5 h6 h7 <;>
    simp_all [WorkspaceUpdate.isFocus]

/-- A matched entity whose name and position both change while gaining
focus produces exactly the three updates rename, move, focus, in that
order. -/
theorem matchedUpdates_three {old_w new_w : IronWorkspace}
    (hname : new_w.name ≠ old_w.name)
    (hmove : new_w.index ≠ old_w.index ∨ new_w.monitor ≠ old_w.monitor)
    (hof : old_w.visibility.is_focused = false)
    (hnf : new_w.visibility.is_focused = true) :
    matchedUpdates old_w new_w
      = [WorkspaceUpdate.Rename new_w.id new_w.name, WorkspaceUpdate.Move new_w,
         WorkspaceUpdate.Focus (some old_w) new_w] := by
  unfold matchedUpdates
  rw [if_pos hname, if_pos hmove, if_pos ⟨by rw [hof, hnf]; simp, hnf⟩]
  rfl

/-- Claim C9: a non-initial diff pass of an entity list against an
identical copy of itself emits zero updates (the ids of a stored list
are pairwise distinct, per the data-model invariant). -/
theorem diff_self_idempotent {l : List IronWorkspace}
    (hn : (l.map (fun w => w.id)).Nodup) :
    diffUpdates l l = [] := by
  rw [diffUpdates_eq]
  have h1 : l.flatMap (entityUpdates l) = [] := by
    rw [List.flatMap_eq_nil_iff]
    intro w hw
    unfold entityUpdates
    rw [find?_id_of_nodup hn hw]
    exact matchedUpdates_self
  have h2 : removesList l l = [] := by
    unfold removesList
    have hf : l.filter (fun old_w => !(l.any (fun w => w.id == old_w.id))) = [] := by
      rw [List.filter_eq_nil_iff]
      intro w hw
      have hany : l.any (fun x => x.id == w.id) = true :=
        List.any_eq_true.2 ⟨w, hw, by simp⟩
      simp [hany]
    rw [hf]
    rfl
  rw [h1, h2]
  rfl

/-- Witness for C9 at a concrete one-element list. -/
theorem diff_self_idempotent_witness :
    (([sampleA].map (fun w => w.id)).Nodup) ∧ diffUpdates [sampleA] [sampleA] = [] :=
  ⟨by decide, diff_self_idempotent (by decide)⟩

/-- Over a duplicate-free old state, the first-loop updates of an
entity matched by id are the matched-entity updates against that
match. -/
theorem entityUpdates_matched {old_state : List IronWorkspace} {ow nw : IronWorkspace}
    (hold : (old_state.map (fun w => w.id)).Nodup) (hmo : ow ∈ old_state)
    (hid : ow.id = nw.id) :
    entityUpdates old_state nw = matchedUpdates ow nw := by
  unfold entityUpdates
  rw [show (fun (w : IronWorkspace) => w.id == nw.id)
      = (fun w => w.id == ow.id) by rw [hid]]
  rw [find?_id_of_nodup hold hmo]

/-- Claim C2: focus asymmetry of a non-initial diff pass over id-keyed
lists.  A matched entity that loses focus with no other field changed
yields zero updates for its id; a matched entity that gains focus yields
exactly one `Focus` update for its id, carrying the previous entity
value as `old` and the new one as `new`; an id present only in the new
list yields only an `Add`, never a `Focus`, even when focused. -/
theorem diff_focus_asymmetry {old_state new_workspaces : List IronWorkspace}
    (hold : (old_state.map (fun w => w.id)).Nodup)
    (hnew : (new_workspaces.map (fun w => w.id)).Nodup) :
    (∀ ow ∈ old_state, ∀ nw ∈ new_workspaces, ow.id = nw.id →
      ow.visibility.is_focused = true → nw.visibility.is_focused = false →
      nw.name = ow.name → nw.index = ow.index → nw.monitor = ow.monitor →
      updatesFor nw.id (diffUpdates old_state new_workspaces) = [])
    ∧ (∀ ow ∈ old_state, ∀ nw ∈ new_workspaces, ow.id = nw.id →
      ow.visibility.is_focused = false → nw.visibility.is_focused = true →
      (updatesFor nw.id (diffUpdates old_state new_workspaces)).filter
        (fun u => u.isFocus) = [WorkspaceUpdate.Focus (some ow) nw])
    ∧ (∀ nw ∈ new_workspaces, (∀ w ∈ old_state, w.id ≠ nw.id) →
      updatesFor nw.id (diffUpdates old_state new_workspaces)
        = [WorkspaceUpdate.Add nw]) := by
  refine ⟨?_, ?_, ?_⟩
  · intro ow hmo nw hmn hid _hof hnf hname hindex hmon
    rw [updatesFor_diff_of_mem hnew hmn, entityUpdates_matched hold hmo hid]
    exact matchedUpdates_eq_nil hname hindex hmon hnf
  · intro ow hmo nw hmn hid hof hnf
    rw [updatesFor_diff_of_mem hnew hmn, entityUpdates_matched hold hmo hid]
    exact matchedUpdates_focus_filter hof hnf
  · intro nw hmn habs
    rw [updatesFor_diff_of_mem hnew hmn]
    unfold entityUpdates
    rw [find?_id_of_absent habs]

/-- Witness for C2: the spec's own scenario — id 1 loses focus with no
other change (zero updates), id 2 appears focused with no prior match
(only an `Add`). -/
theorem diff_focus_asymmetry_witness :
    (([sampleAf].map (fun w => w.id)).Nodup
      ∧ (([sampleA, sampleB].map (fun w => w.id)).Nodup))
    ∧ updatesFor 1 (diffUpdates [sampleAf] [sampleA, sampleB]) = []
    ∧ updatesFor 2 (diffUpdates [sampleAf] [sampleA, sampleB])
        = [WorkspaceUpdate.Add sampleB] := by
  refine ⟨⟨by decide, by decide⟩, ?_, ?_⟩
  · exact (diff_focus_asymmetry (by decide) (by decide)).1 sampleAf (by decide)
      sampleA (by decide) (by decide) (by decide) (by decide) (by decide)
      (by decide) (by decide)
  · exact (diff_focus_asymmetry (by decide) (by decide)).2.2 sampleB (by decide)
      (by decide)

/-- Claim C3: over lists whose ids are each internally distinct, every
id only in the new list yields exactly one `Add`, every id only in the
old list yields exactly one `Remove`, and no id appears in both an
`Add` and a `Remove` from the same pass. -/
theorem diff_add_remove_partition {old_state new_workspaces : List IronWorkspace}
    (hold : (old_state.map (fun w => w.id)).Nodup)
    (hnew : (new_workspaces.map (fun w => w.id)).Nodup) :
    (∀ nw ∈ new_workspaces, (∀ w ∈ old_state, w.id ≠ nw.id) →
      updatesFor nw.id (diffUpdates old_state new_workspaces)
        = [WorkspaceUpdate.Add nw])
    ∧ (∀ ow ∈ old_state, (∀ w ∈ new_workspaces, w.id ≠ ow.id) →
      updatesFor ow.id (diffUpdates old_state new_workspaces)
        = [WorkspaceUpdate.Remove ow.id])
    ∧ (∀ w i, WorkspaceUpdate.Add w ∈ diffUpdates old_state new_workspaces →
      WorkspaceUpdate.Remove i ∈ diffUpdates old_state new_workspaces → w.id ≠ i) := by
  refine ⟨?_, ?_, ?_⟩
  · intro nw hmn habs
    rw [updatesFor_diff_of_mem hnew hmn]
    unfold entityUpdates
    rw [find?_id_of_absent habs]
  · intro ow hmo habs
    exact updatesFor_diff_of_only_old hold hmo habs
  · intro w i hadd hrem
    rw [diffUpdates_eq] at hadd hrem
    rcases List.mem_append.1 hadd with haddf | haddr
    · rcases List.mem_append.1 hrem with hremf | hremr
      · obtain ⟨nw', _, hrem'⟩ := List.mem_flatMap.1 hremf
        have hnr := (mem_entityUpdates hrem').2
        simp [WorkspaceUpdate.isRemove] at hnr
      · obtain ⟨nw, hmn, hu⟩ := List.mem_flatMap.1 haddf
        have huid := (mem_entityUpdates hu).1
        simp only [WorkspaceUpdate.uid, Option.some.injEq] at huid
        obtain ⟨old_w, _, heq, habs⟩ := mem_removesList hremr
        have hio : i = old_w.id := by injection heq
        rw [huid, hio]
        exact habs nw hmn
    · obtain ⟨old_w, _, heq, _⟩ := mem_removesList haddr
      simp at heq

/-- Witness for C3: id 2 appears only in the new list (one `Add`), id 3
only in the old list (one `Remove`). -/
theorem diff_add_remove_partition_witness :
    updatesFor 2 (diffUpdates [sampleA, sampleC] [sampleA, sampleB])
        = [WorkspaceUpdate.Add sampleB]
    ∧ updatesFor 3 (diffUpdates [sampleA, sampleC] [sampleA, sampleB])
        = [WorkspaceUpdate.Remove 3] := by
  constructor
  · exact (diff_add_remove_partition (by decide) (by decide)).1 sampleB
      (by decide) (by decide)
  · exact (diff_add_remove_partition (by decide) (by decide)).2.1 sampleC
      (by decide) (by decide)

/-- Claim C8: the rename and move checks for a matched id are
independent — when both name and monitor (or index) changed, the pass
emits both a `Rename` and a `Move` for that id — and nothing is merged:
a simultaneous rename, move and focus gain emits three separate
updates. -/
theorem diff_rename_move_independent {old_state new_workspaces : List IronWorkspace}
    (hold : (old_state.map (fun w => w.id)).Nodup)
    (hnew : (new_workspaces.map (fun w => w.id)).Nodup) :
    (∀ ow ∈ old_state, ∀ nw ∈ new_workspaces, ow.id = nw.id →
      nw.name ≠ ow.name → (nw.index ≠ ow.index ∨ nw.monitor ≠ ow.monitor) →
      WorkspaceUpdate.Rename nw.id nw.name
          ∈ updatesFor nw.id (diffUpdates old_state new_workspaces)
        ∧ WorkspaceUpdate.Move nw
          ∈ updatesFor nw.id (diffUpdates old_state new_workspaces))
    ∧ (∀ ow ∈ old_state, ∀ nw ∈ new_workspaces, ow.id = nw.id →
      nw.name ≠ ow.name → (nw.index ≠ ow.index ∨ nw.monitor ≠ ow.monitor) →
      ow.visibility.is_focused = false → nw.visibility.is_focused = true →
      updatesFor nw.id (diffUpdates old_state new_workspaces)
        = [WorkspaceUpdate.Rename nw.id nw.name, WorkspaceUpdate.Move nw,
           WorkspaceUpdate.Focus (some ow) nw]) := by
  constructor
  · intro ow hmo nw hmn hid hname hmove
    rw [updatesFor_diff_of_mem hnew hmn, entityUpdates_matched hold hmo hid]
    unfold matchedUpdates
    rw [if_pos hname, if_pos hmove]
    constructor <;> simp
  · intro ow hmo nw hmn hid hname hmove hof hnf
    rw [updatesFor_diff_of_mem hnew hmn, entityUpdates_matched hold hmo hid]
    exact matchedUpdates_three hname hmove hof hnf

/-- Witness for C8: id 1 is simultaneously renamed, moved to another
monitor, and gains focus — the pass emits exactly the three updates. -/
theorem diff_rename_move_independent_witness :
    updatesFor 1 (diffUpdates [sampleA] [sampleA2])
      = [WorkspaceUpdate.Rename 1 ("b"), WorkspaceUpdate.Move sampleA2,
         WorkspaceUpdate.Focus (some sampleA) sampleA2] :=
  (diff_rename_move_independent (by decide) (by decide)).2 sampleA (by decide)
    sampleA2 (by decide) (by decide) (by decide) (by decide) (by decide) (by decide)

/-- In a list with pairwise-distinct ids, the position of an element's
id in the id list is the element's position. -/
theorem indexOf_id_getElem {l : List IronWorkspace}
    (hn : (l.map (fun w => w.id)).Nodup) {i : Nat} (h : i < l.length) :
    (l.map (fun w => w.id)).indexOf (l[i].id) = i := by
  have hl : i < (l.map (fun w => w.id)).length := by simpa using h
  have hx := List.indexOf_getElem hn i hl
  simpa using hx

/-- In a list with pairwise-distinct ids, id positions are monotone. -/
theorem pairwise_indexOf_le {l : List IronWorkspace}
    (hn : (l.map (fun w => w.id)).Nodup) :
    l.Pairwise (fun a b => (l.map (fun w => w.id)).indexOf a.id
      ≤ (l.map (fun w => w.id)).indexOf b.id) := by
  rw [List.pairwise_iff_get]
  intro i j hij
  rw [List.get_eq_getElem, List.get_eq_getElem,
    indexOf_id_getElem hn i.isLt, indexOf_id_getElem hn j.isLt]
  exact Nat.le_of_lt hij

/-- In a list with pairwise-distinct ids, id positions are strictly
monotone. -/
theorem pairwise_indexOf_lt {l : List IronWorkspace}
    (hn : (l.map (fun w => w.id)).Nodup) :
    l.Pairwise (fun a b => (l.map (fun w => w.id)).indexOf a.id
      < (l.map (fun w => w.id)).indexOf b.id) := by
  rw [List.pairwise_iff_get]
  intro i j hij
  rw [List.get_eq_getElem, List.get_eq_getElem,
    indexOf_id_getElem hn i.isLt, indexOf_id_getElem hn j.isLt]
  exact hij

/-- Claim C4: ordering of the emitted update sequence.  All
`Add`/`Rename`/`Move`/`Focus` updates appear in the relative order of
their ids in the new list; all `Remove` updates appear after every one
of those, ordered by their ids' positions in the previous old list. -/
theorem diff_update_ordering {old_state new_workspaces : List IronWorkspace}
    (hold : (old_state.map (fun w => w.id)).Nodup)
    (hnew : (new_workspaces.map (fun w => w.id)).Nodup) :
    (diffUpdates old_state new_workspaces).Pairwise
      (emitBefore (old_state.map (fun w => w.id))
        (new_workspaces.map (fun w => w.id))) := by
  rw [diffUpdates_eq, List.pairwise_append]
  refine ⟨?_, ?_, ?_⟩
  · rw [List.pairwise_flatMap]
    constructor
    · intro nw _
      apply List.pairwise_of_forall_mem_list
      intro x hx y hy
      have hxu := mem_entityUpdates hx
      have hyu := mem_entityUpdates hy
      unfold emitBefore
      rw [if_neg (by simp [hxu.2])]
      right
      rw [hxu.1, hyu.1]
    · refine (pairwise_indexOf_le hnew).imp ?_
      intro a b hab x hx y hy
      have hxu := mem_entityUpdates hx
      have hyu := mem_entityUpdates hy
      unfold emitBefore
      rw [if_neg (by simp [hxu.2])]
      right
      rw [hxu.1, hyu.1]
      simpa using hab
  · unfold removesList
    rw [List.pairwise_map]
    apply List.Pairwise.filter
    refine (pairwise_indexOf_lt hold).imp ?_
    intro a b hab
    unfold emitBefore
    rw [if_pos (by simp [WorkspaceUpdate.isRemove])]
    exact ⟨rfl, by simpa [WorkspaceUpdate.uid] using hab⟩
  · intro x hx y hy
    obtain ⟨nw, _, hxm⟩ := List.mem_flatMap.1 hx
    obtain ⟨old_w, _, rfl, _⟩ := mem_removesList hy
    unfold emitBefore
    rw [if_neg (by simp [(mem_entityUpdates hxm).2])]
    left
    rfl

/-- Witness for C4 at concrete lists: id 2 added, id 3 removed. -/
theorem diff_update_ordering_witness :
    (diffUpdates [sampleA, sampleC] [sampleA, sampleB]).Pairwise
      (emitBefore ([sampleA, sampleC].map (fun w => w.id))
        ([sampleA, sampleB].map (fun w => w.id))) :=
  diff_update_ordering (by decide) (by decide)

/-- The mapped visibility is focused exactly when the window is. -/
theorem window_to_workspace_focus (window : Window) (index : Int) :
    (window_to_workspace window index).visibility.is_focused = window.is_focused := by
  unfold window_to_workspace
  by_cases h : window.is_focused <;> simp [h, Visibility.is_focused]

/-- Claim C5: every entity produced by a refresh is focused or visible —
hidden is never produced — and the number of focused entities equals the
number of focused windows fetched, hence at most one focused entity
under the compositor's single-focus guarantee. -/
theorem refresh_visibility_invariant (windows : List Window) :
    (∀ e ∈ fetched_to_workspaces windows,
      e.visibility = Visibility.focused ∨ e.visibility = Visibility.visible)
    ∧ (fetched_to_workspaces windows).countP (fun e => e.visibility.is_focused)
        = windows.countP (fun w => w.is_focused)
    ∧ (windows.countP (fun w => w.is_focused) ≤ 1 →
      (fetched_to_workspaces windows).countP (fun e => e.visibility.is_focused) ≤ 1) := by
  have hcount : (fetched_to_workspaces windows).countP (fun e => e.visibility.is_focused)
      = windows.countP (fun w => w.is_focused) := by
    unfold fetched_to_workspaces
    rw [List.countP_map]
    rw [List.countP_congr (q := (fun w => w.is_focused) ∘ Prod.snd) ?_]
    · rw [← List.countP_map]
      rw [show windows.enum.map Prod.snd = windows from List.enumFrom_map_snd 0 windows]
    · intro p _
      simp [Function.comp, window_to_workspace_focus]
  refine ⟨?_, hcount, fun h => hcount ▸ h⟩
  intro e he
  obtain ⟨p, _, rfl⟩ := List.mem_map.1 he
  unfold window_to_workspace
  by_cases h : p.2.is_focused <;> simp [h]

/-- Witness for C5: one focused window among two maps to exactly one
focused entity and no hidden one. -/
theorem refresh_visibility_invariant_witness :
    ([sampleWindowBig, sampleWindow].countP (fun w => w.is_focused) ≤ 1)
    ∧ (fetched_to_workspaces [sampleWindowBig, sampleWindow]).countP
        (fun e => e.visibility.is_focused) ≤ 1 :=
  ⟨by decide, (refresh_visibility_invariant [sampleWindowBig, sampleWindow]).2.2 (by decide)⟩

/-- Claim C7: every failing refresh attempt — connection error, send
error, error reply, or a reply of unexpected shape — abandons the
refresh: the stored list is unchanged and no update is published. -/
theorem refresh_failure_no_effect (fetch : FetchOutcome)
    (state : List IronWorkspace) (is_init : Bool)
    (h : fetch.fetchFailed = true) :
    refresh_windows fetch state is_init = (state, []) := by
  cases fetch with
  | connectError m => rfl
  | sendError m => rfl
  | replyErr m => rfl
  | reply r =>
    cases r with
    | Windows ws => simp [FetchOutcome.fetchFailed] at h
    | Handled => rfl

/-- Witness for C7 at a concrete failing fetch. -/
theorem refresh_failure_no_effect_witness :
    ((FetchOutcome.connectError ("NIRI_SOCKET not found")).fetchFailed = true)
    ∧ refresh_windows (FetchOutcome.connectError ("NIRI_SOCKET not found"))
        [sampleA] false = ([sampleA], []) :=
  ⟨by decide, refresh_failure_no_effect _ [sampleA] false (by decide)⟩

/-- Claim C6: `subscribe` first registers the
new receiver, then — when the stored list is non-empty — publishes an
`Init` carrying exactly the stored entities in store order through the
shared channel, so every registered subscriber (pre-existing ones and
the new one) receives it; when the store is empty, nothing is published.
The stored list itself is never changed. -/
theorem subscribe_replay (s : HubState) :
    (subscribe s).windows_as_workspaces = s.windows_as_workspaces
    ∧ (s.windows_as_workspaces ≠ [] →
      (subscribe s).subscribers
        = s.subscribers.map
            (fun q => q ++ [WorkspaceUpdate.Init s.windows_as_workspaces])
          ++ [[WorkspaceUpdate.Init s.windows_as_workspaces]])
    ∧ (s.windows_as_workspaces = [] →
      (subscribe s).subscribers = s.subscribers ++ [[]]) := by
  refine ⟨?_, ?_, ?_⟩
  · unfold subscribe
    split_ifs <;> rfl
  · intro hne
    unfold subscribe
    rw [if_neg (by simpa using hne)]
    unfold publish
    simp
  · intro he
    unfold subscribe
    rw [if_pos (by simpa using he)]

/-- Witness for C6: a non-empty store with one pre-existing subscriber —
both the old and the new subscriber receive the `Init`. -/
theorem subscribe_replay_witness :
    (subscribe ⟨[sampleA], [[WorkspaceUpdate.Add sampleA]]⟩).subscribers
      = [[WorkspaceUpdate.Add sampleA, WorkspaceUpdate.Init [sampleA]],
         [WorkspaceUpdate.Init [sampleA]]] :=
  (subscribe_replay ⟨[sampleA], [[WorkspaceUpdate.Add sampleA]]⟩).2.1 (by decide)

/-- Claim C1 counterexample: at a concrete hard I/O error while reading
the next event, the events closure returns `Ok(Event::Other)` and the
dispatch loop stays `Listening` — it does not transition to
`Terminated` as the claim states. -/
theorem event_error_not_terminated_cex :
    event_listener (fun _ => none) (ReadOutcome.ioError ⟨("connection reset")⟩)
        = Except.ok Event.Other
    ∧ (loop_step (event_listener (fun _ => none)
        (ReadOutcome.ioError ⟨("connection reset")⟩))).1 = LoopState.Listening
    ∧ LoopState.Listening ≠ LoopState.Terminated :=
  ⟨rfl, rfl, by decide⟩

/-- Claim C1, amended: a hard I/O error while reading the next event is
swallowed by the events closure — `unwrap_or(0)` discards the error and
leaves the cleared buffer empty, so the closure returns
`Ok(Event::Other)`; the dispatch loop stays `Listening` and performs no
refresh for that iteration, leaving the StateStore at its last value.
The closure returns `Ok` on every path, so the loop's error branch (and
with it the `Terminated` transition) is unreachable. -/
theorem event_error_swallowed (parse : String → Option Event) (e : IoError) :
    event_listener parse (ReadOutcome.ioError e) = Except.ok Event.Other
    ∧ loop_step (event_listener parse (ReadOutcome.ioError e))
        = (LoopState.Listening, false)
    ∧ ∀ r : ReadOutcome, ∃ ev, event_listener parse r = Except.ok ev := by
  refine ⟨rfl, rfl, ?_⟩
  intro r
  unfold event_listener
  by_cases h : trim_isEmpty (listener_buffer r)
  · exact ⟨Event.Other, by simp [h]⟩
  · exact ⟨(parse (listener_buffer r)).getD Event.Other, by simp [h]⟩

/-- The u64 → i64 → u64 cast roundtrip is the identity below `2 ^ 64`. -/
theorem u64_roundtrip {n : Nat} (h : n < 2 ^ 64) : i64AsU64 (u64AsI64 n) = n := by
  unfold u64AsI64 i64AsU64
  rw [Nat.mod_eq_of_lt h]
  split_ifs with h1 <;> omega

/-- Claim C10: the entity id exposed by `window_to_workspace` is the
window's u64 id reinterpreted as a signed 64-bit value, and `focus` on
that exposed id sends a `FocusWindow` action carrying exactly the
original u64 id — the two casts compose to the identity on all 64-bit
values, including ids at or above `2 ^ 63`. -/
theorem focus_roundtrip (window : Window) (index : Int) (h : window.id < 2 ^ 64) :
    (window_to_workspace window index).id = u64AsI64 window.id
    ∧ focus_action ((window_to_workspace window index).id)
        = NiriAction.FocusWindow window.id := by
  refine ⟨rfl, ?_⟩
  show NiriAction.FocusWindow (i64AsU64 (u64AsI64 window.id)) = _
  rw [u64_roundtrip h]

/-- Witness for C10 at an id at or above `2 ^ 63`. -/
theorem focus_roundtrip_witness :
    (sampleWindowBig.id < 2 ^ 64)
    ∧ focus_action ((window_to_workspace sampleWindowBig 0).id)
        = NiriAction.FocusWindow (2 ^ 63 + 5) :=
  ⟨by decide, (focus_roundtrip sampleWindowBig 0 (by decide)).2⟩
